import Mathlib

/-!
Verification development for a Uniswap-v3 concentrated-liquidity backtester.

The Python source is shallowly embedded here:
  * `Decimal` values become `ℚ` (the spec's numeric contract demands exact
    decimal arithmetic; all claims under study are structural, not
    rounding-sensitive);
  * `datetime`/`timedelta` values become `ℤ` (seconds since the epoch);
  * Python `int` ticks become `ℤ`;
  * fallible code (a raised exception, e.g. a zero-denominator `Decimal`
    division) becomes `Option`, with `none` marking the raise;
  * the float function `tick_to_sqrt_price t = 1.0001 ** (t / 2)` is
    irrational at odd ticks, so the embedding is parametric in an arbitrary
    `sq : ℤ → ℚ` standing for it — no claim under study depends on its
    values;
  * likewise `compute_impermanent_loss` (which uses `Decimal.sqrt`) is
    abstracted as a parameter `ilFn`; the runner only threads its results.

Mutable objects become explicit state values threaded through functions.
-/

namespace UniV3

/-- Checked division: Python `Decimal` division raises on a zero denominator. -/
def ddiv (a b : ℚ) : Option ℚ := if b = 0 then none else some (a / b)

/-- Python `int(x)` for a real `x`: truncation toward zero. -/
def pyint (q : ℚ) : ℤ := if 0 ≤ q then ⌊q⌋ else ⌈q⌉

/-- `datetime(ts.year, ts.month, ts.day)`: truncate a timestamp to midnight. -/
def dayOf (ts : ℤ) : ℤ := 86400 * (ts / 86400)

/-- `timedelta.days` between two midnight-truncated timestamps. -/
def daysBetween (a b : ℤ) : ℤ := (a - b) / 86400

-- ---------------------------------------------------------------------------
-- pool.py
-- ---------------------------------------------------------------------------

structure Pool where
  address : String
  token0 : String
  token1 : String
  fee : ℚ
deriving DecidableEq

structure Position where
  tick_lower : ℤ
  tick_upper : ℤ
  amount0 : ℚ
  amount1 : ℚ
  pool : Pool
  liquidity : ℚ
deriving DecidableEq

structure Swap where
  tick : ℤ
  volume_token0 : ℚ
  volume_token1 : ℚ
  liquidity : ℚ
  timestamp : ℤ
  sqrt_price_x96 : ℤ
deriving DecidableEq

-- ---------------------------------------------------------------------------
-- math.py  (parametric in `sq`, the embedding of `tick_to_sqrt_price`)
-- ---------------------------------------------------------------------------

/-- `compute_token_amounts_from_liquidity` from math.py. -/
def compute_token_amounts_from_liquidity (sq : ℤ → ℚ) (tick_lower tick_upper : ℤ)
    (liquidity : ℚ) (current_tick : ℤ) : Option (ℚ × ℚ) :=
  let sqrt_price := sq current_tick
  let sqrt_price_lower := sq tick_lower
  let sqrt_price_upper := sq tick_upper
  if current_tick ≤ tick_lower then do
    let a ← ddiv 1 sqrt_price_lower
    let b ← ddiv 1 sqrt_price_upper
    some (liquidity * (a - b), 0)
  else if current_tick ≥ tick_upper then
    some (0, liquidity * (sqrt_price_upper - sqrt_price_lower))
  else do
    let a ← ddiv 1 sqrt_price
    let b ← ddiv 1 sqrt_price_upper
    some (liquidity * (a - b), liquidity * (sqrt_price - sqrt_price_lower))

/-- `compute_realized_il` from math.py. -/
def compute_realized_il (entry_token0_ratio current_token0_ratio
    target_token0_ratio full_il : ℚ) : Option ℚ :=
  if target_token0_ratio = current_token0_ratio then
    some 0
  else
    let denominator := |entry_token0_ratio - current_token0_ratio|
    if denominator = 0 then
      some 0
    else
      (ddiv |target_token0_ratio - current_token0_ratio| denominator).map
        (fun realization_fraction => realization_fraction * full_il * 100)

/-- `compute_token1_for_fixed_token0` from math.py. -/
def compute_token1_for_fixed_token0 (sq : ℤ → ℚ) (amount0 : ℚ)
    (tick_lower tick_upper current_tick : ℤ) : Option (ℚ × ℚ) :=
  let sqrtA := sq tick_lower
  let sqrtB := sq tick_upper
  let sqrtP := sq current_tick
  if current_tick ≤ tick_lower then do
    let liquidity ← ddiv (amount0 * sqrtA * sqrtB) (sqrtB - sqrtA)
    some (liquidity, 0)
  else if current_tick ≥ tick_upper then
    some (0, 0)
  else do
    let liquidity ← ddiv (amount0 * sqrtP * sqrtB) (sqrtB - sqrtP)
    some (liquidity, liquidity * (sqrtP - sqrtA))

/-- `sqrtPriceX96_to_price_adjusted` from math.py (exact rational arithmetic). -/
def sqrtPriceX96_to_price_adjusted (sqrtPriceX96 : ℤ)
    (token0_decimals token1_decimals : ℤ) : ℚ :=
  let sqrt_price := (sqrtPriceX96 : ℚ) / (2 ^ 96 : ℚ)
  let price_raw := sqrt_price ^ 2
  price_raw * (10 : ℚ) ^ (token0_decimals - token1_decimals)

-- ---------------------------------------------------------------------------
-- Loop combinators (explicit so that the runner's loops and their exception
-- propagation are spelled out) and `sorted(set(...))`.
-- ---------------------------------------------------------------------------

/-- A `for` loop threading state, aborting at the first raised exception. -/
def ofoldl {σ α : Type} (f : σ → α → Option σ) : σ → List α → Option σ
  | s, [] => some s
  | s, a :: l => (f s a).bind (fun s2 => ofoldl f s2 l)

/-- A `for` loop producing one output per input, aborting at the first raised
exception. -/
def omap {α β : Type} (f : α → Option β) : List α → Option (List β)
  | [] => some []
  | a :: l => (f a).bind (fun b => (omap f l).bind (fun bs => some (b :: bs)))

/-- Python `sorted({...})`: the ascending, duplicate-free enumeration. -/
def dedupSort (l : List ℤ) : List ℤ := l.dedup.insertionSort (· ≤ ·)

-- ---------------------------------------------------------------------------
-- fees.py
-- ---------------------------------------------------------------------------

structure Fee where
  token0 : ℚ
  token1 : ℚ
deriving DecidableEq

/-- The mutable state of a `FeeCalculator` (its `Position` is aliased with the
context's and is passed separately). -/
structure FeeCalcState where
  timestamps : List ℤ
  fees : List Fee
  total_fee : Fee
deriving DecidableEq

def FeeCalcState.init : FeeCalcState := ⟨[], [], ⟨0, 0⟩⟩

namespace FeeCalculator

/-- `FeeCalculator.compute_fee_for_swap`.  The division
`position.liquidity / (swap.liquidity + position.liquidity)` is unguarded in
the source and raises when the total liquidity is zero. -/
def compute_fee_for_swap (position : Position) (swap : Swap) : Option Fee := do
  let total_liquidity := swap.liquidity + position.liquidity
  let liq_share ← ddiv position.liquidity total_liquidity
  if swap.volume_token0 > 0 ∧ swap.volume_token1 < 0 then
    let total_fee_0 := swap.volume_token0 * position.pool.fee
    some ⟨liq_share * total_fee_0, 0⟩
  else if swap.volume_token1 > 0 ∧ swap.volume_token0 < 0 then
    let total_fee_1 := swap.volume_token1 * position.pool.fee
    some ⟨0, liq_share * total_fee_1⟩
  else
    some ⟨0, 0⟩

/-- `FeeCalculator.track`. -/
def track (position : Position) (st : FeeCalcState) (swap : Swap)
    (is_active : Bool) : Option FeeCalcState := do
  let fee ← compute_fee_for_swap position swap
  if is_active then
    some ⟨st.timestamps ++ [swap.timestamp], st.fees ++ [fee],
      ⟨st.total_fee.token0 + fee.token0, st.total_fee.token1 + fee.token1⟩⟩
  else
    some ⟨st.timestamps ++ [swap.timestamp], st.fees ++ [Fee.mk 0 0],
      st.total_fee⟩

end FeeCalculator

-- ---------------------------------------------------------------------------
-- rebalancer.py
-- ---------------------------------------------------------------------------

structure RebalanceEvent where
  timestamp : ℤ
  rebalance_tick : ℤ
  new_tick_lower : ℤ
  new_tick_upper : ℤ
deriving DecidableEq

structure RebalancerContext where
  tick : ℤ
  timestamp : ℤ
  tick_lower : ℤ
  tick_upper : ℤ
  created_at : ℤ
deriving DecidableEq

/-- `compute_tick_range`: raises `ValueError` unless `0 ≤ bias ≤ 1`;
`left = int(width * bias)` truncates toward zero. -/
def compute_tick_range (tick width : ℤ) (bias : ℚ) : Option (ℤ × ℤ) :=
  if 0 ≤ bias ∧ bias ≤ 1 then
    let left := pyint ((width : ℚ) * bias)
    let right := width - left
    some (tick - left, tick + right)
  else
    none

/-- `check_tick_upper_greater_than_lower`: raises when `tick_upper < tick_lower`. -/
def check_tick_upper_greater_than_lower (tick_lower tick_upper : ℤ) : Option Unit :=
  if tick_upper < tick_lower then none else some ()

/-- Mutable state of a `TimeTriggeredRebalancer`. -/
structure TimeTriggered where
  interval : ℤ
  last_rebalanced_at : Option ℤ
  events : List RebalanceEvent
deriving DecidableEq

namespace TimeTriggered

/-- `TimeTriggeredRebalancer.should_rebalance` (read-only on the strategy). -/
def should_rebalance (s : TimeTriggered) (context : RebalancerContext) :
    Option Bool := do
  let _ ← check_tick_upper_greater_than_lower context.tick_lower context.tick_upper
  let reference := s.last_rebalanced_at.getD context.created_at
  some (decide (context.timestamp - reference > s.interval))

/-- `TimeTriggeredRebalancer.rebalance`. -/
def rebalance (s : TimeTriggered) (context : RebalancerContext) (bias : ℚ) :
    Option ((ℤ × ℤ) × TimeTriggered) := do
  let width := context.tick_upper - context.tick_lower
  let (new_lower, new_upper) ← compute_tick_range context.tick width bias
  some ((new_lower, new_upper),
    ⟨s.interval, some context.timestamp,
      s.events ++ [⟨context.timestamp, context.tick, new_lower, new_upper⟩]⟩)

end TimeTriggered

/-- Mutable state of an `OutOfRangeRebalancer`. -/
structure OutOfRange where
  events : List RebalanceEvent
deriving DecidableEq

namespace OutOfRange

/-- `OutOfRangeRebalancer.should_rebalance`. -/
def should_rebalance (s : OutOfRange) (context : RebalancerContext) :
    Option (Bool × OutOfRange) := do
  let _ ← check_tick_upper_greater_than_lower context.tick_lower context.tick_upper
  some (decide (¬ (context.tick_lower ≤ context.tick ∧
    context.tick ≤ context.tick_upper)), s)

/-- `OutOfRangeRebalancer.rebalance`. -/
def rebalance (s : OutOfRange) (context : RebalancerContext) (bias : ℚ) :
    Option ((ℤ × ℤ) × OutOfRange) := do
  let width := context.tick_upper - context.tick_lower
  let (new_lower, new_upper) ← compute_tick_range context.tick width bias
  some ((new_lower, new_upper),
    ⟨s.events ++ [⟨context.timestamp, context.tick, new_lower, new_upper⟩]⟩)

/-- `OutOfRangeRebalancer.get_event_at`: first event with that exact timestamp. -/
def get_event_at (s : OutOfRange) (timestamp : ℤ) : Option RebalanceEvent :=
  s.events.find? (fun e => e.timestamp == timestamp)

end OutOfRange

/-- Mutable state of an `OutOfRangeDurationRebalancer`. -/
structure OutOfRangeDuration where
  duration : ℤ
  out_of_range_since : Option ℤ
  events : List RebalanceEvent
deriving DecidableEq

namespace OutOfRangeDuration

/-- `OutOfRangeDurationRebalancer.should_rebalance`.  Mutates the strategy:
clears `out_of_range_since` when the tick is in range.  Note the source never
assigns a timestamp to `out_of_range_since`; out of range, the reference time
is `out_of_range_since or context.created_at`. -/
def should_rebalance (s : OutOfRangeDuration) (context : RebalancerContext) :
    Option (Bool × OutOfRangeDuration) := do
  let _ ← check_tick_upper_greater_than_lower context.tick_lower context.tick_upper
  let in_range := context.tick_lower ≤ context.tick ∧
    context.tick ≤ context.tick_upper
  if in_range then
    some (false, ⟨s.duration, none, s.events⟩)
  else
    let reference := s.out_of_range_since.getD context.created_at
    some (decide (context.timestamp - reference ≥ s.duration), s)

/-- Fold `should_rebalance` over a sequence of contexts, collecting each call's
answer; `none` when some call raises. -/
def run_calls (s : OutOfRangeDuration) :
    List RebalancerContext → Option (List Bool × OutOfRangeDuration)
  | [] => some ([], s)
  | c :: cs => do
      let (b, s2) ← should_rebalance s c
      let (bs, s3) ← run_calls s2 cs
      some (b :: bs, s3)

end OutOfRangeDuration

-- ---------------------------------------------------------------------------
-- Impermanent_Loss.py
-- ---------------------------------------------------------------------------

/-- Mutable state of an `ImpermanentLossTracker`. -/
structure ILState where
  entry_tick : ℤ
  entry_token0_ratio : ℚ
  tick_lower : ℤ
  tick_upper : ℤ
  il_series : List (ℤ × ℚ)
  realized_il_series : List (ℤ × ℚ)
deriving DecidableEq

namespace ILTracker

/-- The guarded conditional `x / (x + y) if (x + y) > 0 else Decimal("0.5")`
used verbatim in both `__init__` and `realize_il`. -/
def token0_share (x y : ℚ) : Option ℚ :=
  if x + y > 0 then ddiv x (x + y) else some (1 / 2 : ℚ)

/-- `ImpermanentLossTracker.__init__`: the entry token0 share, guarded to `0.5`
when the entry amounts do not sum to a positive value. -/
def init (entry_tick : ℤ) (entry_token0 entry_token1 : ℚ)
    (tick_lower tick_upper : ℤ) : Option ILState := do
  let r ← token0_share entry_token0 entry_token1
  some ⟨entry_tick, r, tick_lower, tick_upper, [], []⟩

/-- `ImpermanentLossTracker.track_il`, parametric in the embedding `ilFn` of
`compute_impermanent_loss` (whose `Decimal.sqrt` is not rational). -/
def track_il (ilFn : ℤ → ℤ → ℤ → ℤ → Option ℚ) (st : ILState)
    (timestamp current_tick : ℤ) : Option ILState := do
  let clamped_tick :=
    if current_tick < st.tick_lower then st.tick_lower
    else if current_tick > st.tick_upper then st.tick_upper
    else current_tick
  let il ← ilFn clamped_tick st.entry_tick st.tick_lower st.tick_upper
  some { st with il_series := st.il_series ++ [(timestamp, il)] }

/-- `ImpermanentLossTracker.realize_il`. -/
def realize_il (st : ILState) (timestamp : ℤ) (new_token0 new_token1 : ℚ) :
    Option ILState := do
  let current_ratio ← token0_share new_token0 new_token1
  let target_ratio := st.entry_token0_ratio
  let full_il := match st.il_series.getLast? with
    | some p => p.2
    | none => 0
  let realized ← compute_realized_il st.entry_token0_ratio current_ratio
    target_ratio full_il
  some { st with realized_il_series := st.realized_il_series ++ [(timestamp, realized)] }

end ILTracker

-- ---------------------------------------------------------------------------
-- apr.py
-- ---------------------------------------------------------------------------

/-- One snapshot of `end_states_by_day`: scaled balances, scaled fees, raw
price encoding. -/
structure APRSnapshot where
  token0 : ℚ
  token1 : ℚ
  fee0 : ℚ
  fee1 : ℚ
  sqrtPriceX96 : ℤ
deriving DecidableEq

/-- Mutable state of an `APRTracker`; `end_states_by_day` is a Python dict
keyed by midnight-truncated day, modelled as an association list with
insert-or-overwrite updates (keys stay distinct). -/
structure APRState where
  initial_token0_scaled : ℚ
  initial_token1_scaled : ℚ
  initial_tick : ℤ
  token0_decimals : ℤ
  token1_decimals : ℤ
  start_date : Option ℤ
  end_states_by_day : List (ℤ × APRSnapshot)
deriving DecidableEq

/-- Dict write `d[k] = v`: overwrite in place if the key exists, else append. -/
def upsert (l : List (ℤ × APRSnapshot)) (k : ℤ) (v : APRSnapshot) :
    List (ℤ × APRSnapshot) :=
  if l.any (fun p => p.1 == k) then
    l.map (fun p => if p.1 == k then (k, v) else p)
  else
    l ++ [(k, v)]

/-- `max(valid_days)` followed by the dict lookup: the entry with the largest
key among those with key `≤ q`, `none` when no key qualifies. -/
def maxEntryLe (l : List (ℤ × APRSnapshot)) (q : ℤ) : Option (ℤ × APRSnapshot) :=
  (l.filter (fun p => decide (p.1 ≤ q))).foldl
    (fun acc p =>
      match acc with
      | none => some p
      | some b => if b.1 ≤ p.1 then some p else some b)
    none

namespace APRTracker

/-- `APRTracker._scale`. -/
def scale (amount : ℚ) (decimals : ℤ) : ℚ := amount / (10 : ℚ) ^ decimals

/-- `APRTracker.__init__`. -/
def init (initial_token0 initial_token1 : ℚ) (initial_tick : ℤ)
    (token0_decimals token1_decimals : ℤ) : APRState :=
  ⟨scale initial_token0 token0_decimals, scale initial_token1 token1_decimals,
    initial_tick, token0_decimals, token1_decimals, none, []⟩

/-- `APRTracker.track`. -/
def track (st : APRState) (timestamp : ℤ) (token0 token1 fee_token0 fee_token1 : ℚ)
    (sqrtPriceX96 : ℤ) : APRState :=
  let day := dayOf timestamp
  let sd := match st.start_date with
    | none => some day
    | some d => some d
  { st with
    start_date := sd
    end_states_by_day := upsert st.end_states_by_day day
      ⟨scale token0 st.token0_decimals, scale token1 st.token1_decimals,
        scale fee_token0 st.token0_decimals, scale fee_token1 st.token1_decimals,
        sqrtPriceX96⟩ }

/-- One iteration of the `compute_apr_on_dates` loop at one query date.
Outer `none` = a raised exception; inner `none` = the date is skipped
(`continue`). -/
def apr_at_date (st : APRState) (sd : ℤ) (query_date : ℤ) :
    Option (Option (ℤ × ℚ)) :=
  if query_date ≤ sd then some none
  else
    match maxEntryLe st.end_states_by_day query_date with
    | none => some none
    | some (_last_day, snap) =>
        let price_token1_per_token0 := sqrtPriceX96_to_price_adjusted
          snap.sqrtPriceX96 st.token0_decimals st.token1_decimals
        let total_token0 := snap.token0 + snap.fee0
        let total_token1 := snap.token1 + snap.fee1
        let token0_value_in_token1 := total_token0 * price_token1_per_token0
        let lp_value_token1 := total_token1 + token0_value_in_token1
        let initial_token0_value_in_token1 :=
          st.initial_token0_scaled * price_token1_per_token0
        let hodl_value_token1 :=
          st.initial_token1_scaled + initial_token0_value_in_token1
        let net_gain := lp_value_token1 - hodl_value_token1
        let days_elapsed := daysBetween query_date sd
        if days_elapsed < 1 then some none
        else
          (ddiv net_gain hodl_value_token1).map
            (fun apr => some (query_date, apr * 100))

/-- `APRTracker.compute_apr_on_dates`: the per-date loop, skipping dates that
`continue`; the series is a list of (date, value) pairs. -/
def compute_apr_on_dates (st : APRState) (query_dates : List ℤ) :
    Option (List (ℤ × ℚ)) :=
  match st.start_date with
  | none => some []
  | some sd => do
      let rows ← omap (apr_at_date st sd) query_dates
      some rows.reduceOption

end APRTracker

-- ---------------------------------------------------------------------------
-- activity.py
-- ---------------------------------------------------------------------------

/-- Mutable list state of an `ActivityTracker` (its `Position` is the
context's, aliased). -/
structure ActivityState where
  timestamps : List ℤ
  activity : List Bool
  amounts_token0 : List ℚ
  amounts_token1 : List ℚ
deriving DecidableEq

def ActivityState.init : ActivityState := ⟨[], [], [], []⟩

/-- `ActivityTracker.is_active`. -/
def ActivityTracker.is_active (position : Position) (tick : ℤ) : Bool :=
  decide (position.tick_lower ≤ tick ∧ tick ≤ position.tick_upper)

-- ---------------------------------------------------------------------------
-- backtester.py
-- ---------------------------------------------------------------------------

/-- The per-context simulation state threaded by the runner: the context's
(mutable, aliased) `Position` with its trackers, the static swap series and
creation time, and the runner's own per-context output lists
(`token_balances[i]`, `token_compositions[i]`, `tick_contexts[i]`,
`rebalance_events[i]`).  `R` is the type of the attached rebalancing
strategy's state (the runner uses strategies only through their duck-typed
interface). -/
structure CtxState (R : Type) where
  position : Position
  created_at : ℤ
  swaps : List Swap
  tracker : ActivityState
  calculator : FeeCalcState
  il_tracker : Option ILState
  apr_tracker : Option APRState
  rebalancer : Option R
  token_balances : List (ℤ × ℚ × ℚ)
  token_compositions : List (ℤ × ℚ × ℚ)
  tick_contexts : List (ℤ × ℤ)
  rebalance_events : List RebalanceEvent
deriving DecidableEq

/-- Dict write `tick_contexts[i][timestamp] = swap.tick`. -/
def tickUpsert (l : List (ℤ × ℤ)) (k v : ℤ) : List (ℤ × ℤ) :=
  if l.any (fun p => p.1 == k) then
    l.map (fun p => if p.1 == k then (k, v) else p)
  else
    l ++ [(k, v)]

section Runner

variable {R : Type}
variable (sq : ℤ → ℚ) (ilFn : ℤ → ℤ → ℤ → ℤ → Option ℚ)
variable (shouldReb : R → RebalancerContext → Option (Bool × R))
variable (doReb : R → RebalancerContext → ℚ → Option ((ℤ × ℤ) × R))
variable (getEventAt : R → ℤ → Option RebalanceEvent)

/-- `ActivityTracker.track`: recompute the activity flag and the position's
token amounts from its liquidity at the swap's tick, writing the amounts back
into the (aliased) position. -/
def activityTrack (c : CtxState R) (swap : Swap) : Option (CtxState R) := do
  let active := ActivityTracker.is_active c.position swap.tick
  let (amount0, amount1) ← compute_token_amounts_from_liquidity sq
    c.position.tick_lower c.position.tick_upper c.position.liquidity swap.tick
  some { c with
    position := { c.position with amount0 := amount0, amount1 := amount1 }
    tracker := ⟨c.tracker.timestamps ++ [swap.timestamp],
      c.tracker.activity ++ [active],
      c.tracker.amounts_token0 ++ [amount0],
      c.tracker.amounts_token1 ++ [amount1]⟩ }

/-- The rebalancing block of `GlobalClockBacktestRunner._process_swap`: when a
rebalancer is attached and fires, compute new bounds, recompute liquidity and
the paired token1 for the fixed token0, and write the new bounds and amount1
back into the position (the recomputed liquidity `L` is bound but not written
back in the source). -/
def applyRebalance (c : CtxState R) (swap : Swap) (timestamp : ℤ) :
    Option (CtxState R) :=
  match c.rebalancer with
  | none => some c
  | some r => do
      let rebalance_context : RebalancerContext :=
        ⟨swap.tick, timestamp, c.position.tick_lower, c.position.tick_upper,
          c.created_at⟩
      let (should, r1) ← shouldReb r rebalance_context
      if should then do
        let ((new_lower, new_upper), r2) ← doReb r1 rebalance_context (1 / 2)
        let (_L, new_amount1) ← compute_token1_for_fixed_token0 sq
          c.position.amount0 new_lower new_upper swap.tick
        let c2 : CtxState R := { c with
          position := { c.position with
            tick_lower := new_lower, tick_upper := new_upper,
            amount1 := new_amount1 }
          rebalancer := some r2 }
        match getEventAt r2 timestamp with
        | some ev =>
            some { c2 with rebalance_events := c2.rebalance_events ++ [ev] }
        | none => some c2
      else
        some { c with rebalancer := some r1 }

/-- Steps 4–9 of `GlobalClockBacktestRunner._process_swap`, after the
rebalancing block: recompute the active flag with the (possibly updated)
bounds, accrue the fee, sample unrealized IL, record the tick, push the
return-tracker sample, and append the post-swap balances. -/
def postRebalance (c : CtxState R) (swap : Swap) (timestamp : ℤ) :
    Option (CtxState R) := do
  let is_active := ActivityTracker.is_active c.position swap.tick
  let cal ← FeeCalculator.track c.position c.calculator swap is_active
  let c := { c with calculator := cal }
  let c ← match c.il_tracker with
    | none => some c
    | some st => do
        let st2 ← ILTracker.track_il ilFn st timestamp swap.tick
        some { c with il_tracker := some st2 }
  let c := { c with tick_contexts := tickUpsert c.tick_contexts timestamp swap.tick }
  let c ← match c.apr_tracker with
    | none => some c
    | some st => do
        let _latest_fee ← c.calculator.fees.getLast?
        some { c with apr_tracker := some (APRTracker.track st swap.timestamp
          c.position.amount0 c.position.amount1
          c.calculator.total_fee.token0 c.calculator.total_fee.token1
          swap.sqrt_price_x96) }
  some { c with token_balances := c.token_balances ++
    [(timestamp, c.position.amount0, c.position.amount1)] }

/-- `GlobalClockBacktestRunner._process_swap`: the fixed per-swap pipeline. -/
def processSwap (timestamp : ℤ) (c : CtxState R) (swap : Swap) :
    Option (CtxState R) := do
  let c := { c with token_compositions := c.token_compositions ++
    [(timestamp, c.position.amount0, c.position.amount1)] }
  let c ← activityTrack sq c swap
  let c ← applyRebalance sq shouldReb doReb getEventAt c swap timestamp
  postRebalance ilFn c swap timestamp

end Runner

section RunnerLoop

variable {R : Type}
variable (sq : ℤ → ℚ) (ilFn : ℤ → ℤ → ℤ → ℤ → Option ℚ)
variable (shouldReb : R → RebalancerContext → Option (Bool × R))
variable (doReb : R → RebalancerContext → ℚ → Option ((ℤ × ℤ) × R))
variable (getEventAt : R → ℤ → Option RebalanceEvent)

/-- The inner loop of `GlobalClockBacktestRunner.run` for one context at one
global timestamp: process, in original order, every swap of the context
occurring exactly at that timestamp. -/
def processAt (t : ℤ) (c : CtxState R) : Option (CtxState R) :=
  ofoldl (fun c2 swap => processSwap sq ilFn shouldReb doReb getEventAt t c2 swap)
    c (c.swaps.filter (fun s => decide (s.timestamp = t)))

/-- `GlobalClockBacktestRunner.run`'s double loop: for each global timestamp in
order, advance every context by its swaps at that timestamp. -/
def runLoop (T : List ℤ) (cs : List (CtxState R)) : Option (List (CtxState R)) :=
  ofoldl (fun cs2 t => omap (processAt sq ilFn shouldReb doReb getEventAt t) cs2)
    cs T

/-- One context advanced alone over a list of timestamps. -/
def runOver (T : List ℤ) (c : CtxState R) : Option (CtxState R) :=
  ofoldl (fun c2 t => processAt sq ilFn shouldReb doReb getEventAt t c2) c T

/-- `self.global_timestamps`: every timestamp appearing in any context's swap
series, ascending and duplicate-collapsed. -/
def globalTimestamps (cs : List (CtxState R)) : List ℤ :=
  dedupSort (cs.flatMap (fun c => c.swaps.map (fun s => s.timestamp)))

/-- `BacktestResult` (pydantic model), with `APRTimeseries`, `ILTimeseries`,
`ActivityTimeseries` and `FeeTimeseries` flattened into their parallel lists
or pair lists. -/
structure BacktestResult where
  total_fees_token0 : ℚ
  total_fees_token1 : ℚ
  apr_series : List (ℤ × ℚ)
  activity_timestamps : List ℤ
  activity : List Bool
  fee_timestamps : List ℤ
  fees : List Fee
  il_series : List (ℤ × ℚ)
  realized_il : List (ℤ × ℚ)
  token_balance_series : List (ℤ × ℚ × ℚ)
  token_composition_series : List (ℤ × ℚ × ℚ)
  swap_ticks : List (ℤ × ℤ)
  initial_tick_lower : ℤ
  initial_tick_upper : ℤ
  rebalancing_events : List RebalanceEvent
deriving DecidableEq

/-- `GlobalClockBacktestRunner._finalize_results` for one context:
`daily_dates` is derived from the *global* timeline, and the rest comes from
the context's own final state via `BacktestResult.from_simulation`. -/
def finalizeCtx (T : List ℤ) (c : CtxState R) : Option BacktestResult := do
  let daily_dates := dedupSort (T.map dayOf)
  let apr_series ← match c.apr_tracker with
    | some st => APRTracker.compute_apr_on_dates st daily_dates
    | none => some []
  some {
    total_fees_token0 := c.calculator.total_fee.token0
    total_fees_token1 := c.calculator.total_fee.token1
    apr_series := apr_series
    activity_timestamps := c.tracker.timestamps
    activity := c.tracker.activity
    fee_timestamps := c.calculator.timestamps
    fees := c.calculator.fees
    il_series := match c.il_tracker with
      | some st => st.il_series
      | none => []
    realized_il := match c.il_tracker with
      | some st => st.realized_il_series
      | none => []
    token_balance_series := c.token_balances
    token_composition_series := c.token_compositions
    swap_ticks := c.swaps.map (fun s => (s.timestamp, s.tick))
    initial_tick_lower := c.position.tick_lower
    initial_tick_upper := c.position.tick_upper
    rebalancing_events := c.rebalance_events }

/-- `GlobalClockBacktestRunner.run`: drive every context over the merged
timeline, then finalize each context's result bundle. -/
def run (cs : List (CtxState R)) : Option (List BacktestResult) := do
  let T := globalTimestamps cs
  let sts ← runLoop sq ilFn shouldReb doReb getEventAt T cs
  omap (finalizeCtx T) sts

end RunnerLoop

/-- Every component of a `BacktestResult` except the return/APR series. -/
def exceptAPR (r : BacktestResult) :
    ℚ × ℚ × List ℤ × List Bool × List ℤ × List Fee × List (ℤ × ℚ) ×
    List (ℤ × ℚ) × List (ℤ × ℚ × ℚ) × List (ℤ × ℚ × ℚ) × List (ℤ × ℤ) ×
    ℤ × ℤ × List RebalanceEvent :=
  (r.total_fees_token0, r.total_fees_token1, r.activity_timestamps, r.activity,
    r.fee_timestamps, r.fees, r.il_series, r.realized_il,
    r.token_balance_series, r.token_composition_series, r.swap_ticks,
    r.initial_tick_lower, r.initial_tick_upper, r.rebalancing_events)

/-- Track a whole (swap, is_active) sequence through one `FeeCalculator`. -/
def FeeCalculator.track_all (position : Position) (st : FeeCalcState)
    (l : List (Swap × Bool)) : Option FeeCalcState :=
  ofoldl (fun st2 p => FeeCalculator.track position st2 p.1 p.2) st l

-- ---------------------------------------------------------------------------
-- Concrete inputs used by counterexamples and witnesses.
-- ---------------------------------------------------------------------------

def pool0 : Pool := ⟨"0xPool", "ETH", "USDC", 3 / 1000⟩

/-- A zero-liquidity position (as in the repository's own fee test). -/
def positionZeroLiq : Position := ⟨1000, 2000, 0, 0, pool0, 0⟩

/-- A token0-inbound swap whose in-range liquidity is zero. -/
def swapZeroLiq : Swap := ⟨1500, 100, -200, 0, 0, 0⟩

/-- The same swap with nonzero in-range liquidity. -/
def swapSomeLiq : Swap := ⟨1500, 100, -200, 10000, 0, 0⟩

def ttStrat : TimeTriggered := ⟨60, none, []⟩

/-- Elapsed time since creation is exactly the interval (60). -/
def ttCtxBoundary : RebalancerContext := ⟨1500, 60, 1400, 1600, 0⟩

/-- Elapsed time since creation strictly exceeds the interval. -/
def ttCtxLate : RebalancerContext := ⟨1500, 61, 1400, 1600, 0⟩

def oordStrat : OutOfRangeDuration := ⟨30, none, []⟩

/-- Tick 1500 is inside [1400, 1600] at time 10. -/
def oordCtxIn : RebalancerContext := ⟨1500, 10, 1400, 1600, 0⟩

/-- Tick 2000 is outside [1400, 1600] at time 40 (created at 0). -/
def oordCtxOut : RebalancerContext := ⟨2000, 40, 1400, 1600, 0⟩

/-- A concrete tracker state for the C10 witness. -/
def ilStateW : ILState := ⟨0, 1 / 2, 0, 1, [], []⟩

/-- A unit-liquidity position for the C8 witness. -/
def posW : Position := ⟨0, 10, 0, 0, pool0, 1⟩

/-- A token0-inbound swap matching `posW`. -/
def swapW : Swap := ⟨5, 100, -200, 1, 0, 0⟩

/-- The fee state after tracking `swapW` once active and once inactive. -/
def feeStW : FeeCalcState :=
  ⟨[0, 0], [⟨3 / 20, 0⟩, ⟨0, 0⟩], ⟨3 / 20, 0⟩⟩

/-- A concrete stand-in for the square-root-price function in runner
counterexamples and witnesses. -/
def sqLin : ℤ → ℚ := fun t => (t : ℚ)

/-- A trivial concrete stand-in for `compute_impermanent_loss`. -/
def ilFnZero : ℤ → ℤ → ℤ → ℤ → Option ℚ := fun _ _ _ _ => some 0

/-- A position whose range [30, 40] lies above the swap tick 20, with
liquidity 5 and one unit of token0. -/
def posC3 : Position := ⟨30, 40, 1, 0, pool0, 5⟩

/-- A swap at tick 20 (outside [30, 40]), timestamp 0. -/
def swapC3 : Swap := ⟨20, 100, -200, 1, 0, 0⟩

/-- A context holding `posC3` with an attached `OutOfRangeRebalancer`. -/
def ctxC3 : CtxState OutOfRange :=
  ⟨posC3, 0, [swapC3], ActivityState.init, FeeCalcState.init, none, none,
    some ⟨[]⟩, [], [], [], []⟩

/-- The swaps of a series grouped by a timestamp list: the concatenation, over
the timestamps in order, of the swaps occurring exactly at each timestamp. -/
def groupJoin (T : List ℤ) (S : List Swap) : List Swap :=
  (T.map (fun t => S.filter (fun s => decide (s.timestamp = t)))).flatten

/-- A strictly positive square-root-price stand-in for the C4 runs. -/
def sqPos : ℤ → ℚ := fun t => (t : ℚ) + 100

/-- Trivial rebalancer interface for contexts with no attached rebalancer. -/
def noShould : Unit → RebalancerContext → Option (Bool × Unit) := fun _ _ => none

def noReb : Unit → RebalancerContext → ℚ → Option ((ℤ × ℤ) × Unit) :=
  fun _ _ _ => none

def noEvent : Unit → ℤ → Option RebalanceEvent := fun _ _ => none

/-- A position for the C4 runs: range [-10, 10], liquidity 1. -/
def posA : Position := ⟨-10, 10, 100, 0, pool0, 1⟩

/-- Context A's swap: tick 0 at timestamp 0 (calendar day 0). -/
def swapA : Swap := ⟨0, 1, -1, 1, 0, 2 ^ 96⟩

/-- Context B's swap: tick 0 at timestamp 86400 (calendar day 1). -/
def swapB : Swap := ⟨0, 1, -1, 1, 86400, 2 ^ 96⟩

/-- Context A's return tracker: 100 token0 / 0 token1 initial, zero decimal
scaling. -/
def aprA : APRState := APRTracker.init 100 0 0 0 0

/-- Context A: one swap on day 0, with a return tracker attached. -/
def ctxA : CtxState Unit :=
  ⟨posA, 0, [swapA], ActivityState.init, FeeCalcState.init, none, some aprA,
    none, [], [], [], []⟩

/-- Context B: one swap on day 1, no optional trackers. -/
def ctxB : CtxState Unit :=
  ⟨posA, 0, [swapB], ActivityState.init, FeeCalcState.init, none, none,
    none, [], [], [], []⟩

-- ---------------------------------------------------------------------------
-- Helper lemmas.
-- ---------------------------------------------------------------------------

theorem ddiv_ne_zero (a b : ℚ) (h : b ≠ 0) : ddiv a b = some (a / b) := by
  simp [ddiv, h]

theorem compute_realized_il_isSome (e c t f : ℚ) :
    ∃ v, compute_realized_il e c t f = some v := by
  unfold compute_realized_il
  by_cases h1 : t = c
  · exact ⟨0, by simp [h1]⟩
  · by_cases h2 : |e - c| = 0
    · exact ⟨0, by simp [h1, h2]⟩
    · refine ⟨|t - c| / |e - c| * f * 100, ?_⟩
      simp [h1, h2, ddiv_ne_zero _ _ h2]

-- ---------------------------------------------------------------------------
-- C1: zero total liquidity in the fee-share denominator.
-- ---------------------------------------------------------------------------

/-- C1.  The claim says `compute_fee_for_swap` returns a zero fee on both
tokens when the swap's and the position's liquidity sum to zero.  The code
divides by the unguarded total and raises instead (embedded: `none`); with the
same zero-liquidity position but nonzero swap liquidity it does return the
zero fee.  This contradicts the spec's explicit degenerate-input requirement,
so the code is at fault (code_bug). -/
theorem fee_zero_total_liquidity_raises :
    FeeCalculator.compute_fee_for_swap positionZeroLiq swapZeroLiq = none ∧
    FeeCalculator.compute_fee_for_swap positionZeroLiq swapSomeLiq =
      some ⟨0, 0⟩ := by
  constructor <;> with_unfolding_all rfl

-- ---------------------------------------------------------------------------
-- C5: TimeTriggeredRebalancer firing condition.
-- ---------------------------------------------------------------------------

/-- C5 counterexample.  With interval 60, creation time 0 and no previous
rebalance, a call at timestamp 60 — elapsed time exactly equal to the
interval — returns `false`, though the claim says the strategy fires when the
elapsed time equals the interval. -/
theorem time_triggered_boundary_counterexample :
    TimeTriggered.should_rebalance ttStrat ttCtxBoundary = some false ∧
    ttCtxBoundary.timestamp - ttCtxBoundary.created_at = ttStrat.interval := by
  constructor <;> decide

/-- C5 amended.  For every `TimeTriggeredRebalancer` and context with
well-ordered bounds, `should_rebalance` returns true exactly when the elapsed
time since the last rebalance (or position creation, if none yet) is
*strictly greater* than the interval; in particular it does not fire when the
elapsed time equals the interval. -/
theorem time_triggered_fires_iff (s : TimeTriggered) (c : RebalancerContext)
    (hb : c.tick_lower ≤ c.tick_upper) :
    TimeTriggered.should_rebalance s c = some true ↔
      s.interval < c.timestamp - (s.last_rebalanced_at.getD c.created_at) := by
  have hc : check_tick_upper_greater_than_lower c.tick_lower c.tick_upper =
      some () := by
    simp [check_tick_upper_greater_than_lower, not_lt.mpr hb]
  simp [TimeTriggered.should_rebalance, hc, gt_iff_lt]

/-- Witness for C5's amended theorem: at elapsed time 61 > interval 60 the
strategy fires. -/
theorem time_triggered_fires_iff_witness :
    ttCtxLate.tick_lower ≤ ttCtxLate.tick_upper ∧
    TimeTriggered.should_rebalance ttStrat ttCtxLate = some true := by
  refine ⟨by decide, ?_⟩
  exact (time_triggered_fires_iff ttStrat ttCtxLate (by decide)).mpr (by decide)

-- ---------------------------------------------------------------------------
-- C2: OutOfRangeDurationRebalancer temporal behaviour.
-- ---------------------------------------------------------------------------

/-- C2 counterexample.  Duration 30, created at 0, marker unset.  Call 1 at
time 10 with the tick in range (no fire, marker cleared).  Call 2 at time 40
is the *first* out-of-range observation, so under the claim the tick has been
continuously out of range for 0 < 30 time units and the strategy must not
fire; the code fires because the marker was never set and the elapsed time is
measured from position creation (40 − 0 ≥ 30). -/
theorem oord_counterexample :
    OutOfRangeDuration.run_calls oordStrat [oordCtxIn, oordCtxOut] =
      some ([false, true], oordStrat) ∧
    ¬ (oordCtxOut.timestamp - oordCtxOut.timestamp ≥ oordStrat.duration) := by
  constructor <;> decide

/-- C2 amended.  Along every call sequence on a strategy whose
`out_of_range_since` marker is unset (its freshly-constructed state, and
`should_rebalance` never sets it): the strategy never fires while the tick is
in range, the marker stays unset after re-entering range and throughout, and
an out-of-range call fires exactly when the time elapsed *since position
creation* (not since the tick left the range) is at least the duration. -/
theorem oord_step (s : OutOfRangeDuration) (h : s.out_of_range_since = none)
    (c : RebalancerContext) (hbc : c.tick_lower ≤ c.tick_upper) :
    OutOfRangeDuration.should_rebalance s c =
      some (decide ((c.tick < c.tick_lower ∨ c.tick_upper < c.tick) ∧
        s.duration ≤ c.timestamp - c.created_at), s) := by
  obtain ⟨d, since_, ev⟩ := s
  simp only at h
  subst h
  have hcheck : check_tick_upper_greater_than_lower c.tick_lower
      c.tick_upper = some () := by
    simp [check_tick_upper_greater_than_lower, not_lt.mpr hbc]
  simp only [OutOfRangeDuration.should_rebalance, hcheck, Option.bind_eq_bind,
    Option.some_bind]
  by_cases hin : c.tick_lower ≤ c.tick ∧ c.tick ≤ c.tick_upper
  · rw [if_pos hin]
    have hd : decide ((c.tick < c.tick_lower ∨ c.tick_upper < c.tick) ∧
        d ≤ c.timestamp - c.created_at) = false := by
      rw [decide_eq_false_iff_not]
      rintro ⟨ho, -⟩
      rcases hin with ⟨hi1, hi2⟩
      rcases ho with h1 | h2 <;> omega
    rw [hd]
  · rw [if_neg hin]
    have heq : decide (c.timestamp - Option.getD none c.created_at ≥ d) =
        decide ((c.tick < c.tick_lower ∨ c.tick_upper < c.tick) ∧
          d ≤ c.timestamp - c.created_at) := by
      rw [decide_eq_decide]
      rw [not_and_or, not_le, not_le] at hin
      simp only [Option.getD, ge_iff_le]
      constructor
      · intro hge
        exact ⟨hin, hge⟩
      · rintro ⟨-, hge⟩
        exact hge
    rw [heq]

theorem oord_run_amended (s : OutOfRangeDuration)
    (h : s.out_of_range_since = none) (cs : List RebalancerContext)
    (hb : ∀ c ∈ cs, c.tick_lower ≤ c.tick_upper) :
    OutOfRangeDuration.run_calls s cs =
      some (cs.map (fun c =>
        decide ((c.tick < c.tick_lower ∨ c.tick_upper < c.tick) ∧
          s.duration ≤ c.timestamp - c.created_at)), s) := by
  induction cs with
  | nil => rfl
  | cons c cs ih =>
      have hbc : c.tick_lower ≤ c.tick_upper := hb c (by simp)
      have hstep := oord_step s h c hbc
      have hrest := ih (fun c2 hc2 => hb c2 (by simp [hc2]))
      simp only [OutOfRangeDuration.run_calls, hstep, Option.bind_eq_bind,
        Option.some_bind, hrest, List.map_cons]

-- ---------------------------------------------------------------------------
-- C6: token-amount regimes of compute_token_amounts_from_liquidity.
-- ---------------------------------------------------------------------------

/-- C6.  For every square-root-price function, range with
`tick_lower < tick_upper`, liquidity and current tick `t`: whenever the
computation returns, `t ≤ tick_lower` forces `token1 = 0` and
`t ≥ tick_upper` forces `token0 = 0`. -/
theorem token_amounts_regimes (sq : ℤ → ℚ) (tick_lower tick_upper : ℤ)
    (liquidity : ℚ) (t : ℤ) (r : ℚ × ℚ) (hlt : tick_lower < tick_upper) :
    (t ≤ tick_lower →
      compute_token_amounts_from_liquidity sq tick_lower tick_upper liquidity t
        = some r → r.2 = 0) ∧
    (tick_upper ≤ t →
      compute_token_amounts_from_liquidity sq tick_lower tick_upper liquidity t
        = some r → r.1 = 0) := by
  constructor
  · intro hle hcomp
    unfold compute_token_amounts_from_liquidity at hcomp
    rw [if_pos hle] at hcomp
    simp only [Option.bind_eq_bind, Option.bind_eq_some] at hcomp
    obtain ⟨a, -, b, -, hr⟩ := hcomp
    obtain rfl : (liquidity * (a - b), (0 : ℚ)) = r := Option.some.injEq _ _ ▸ hr
    rfl
  · intro hge hcomp
    unfold compute_token_amounts_from_liquidity at hcomp
    rw [if_neg (by omega), if_pos (by exact hge)] at hcomp
    obtain rfl : ((0 : ℚ), liquidity * (sq tick_upper - sq tick_lower)) = r :=
      Option.some.injEq _ _ ▸ hcomp
    rfl

/-- Witness for C6 at a concrete square-root-price function and range. -/
theorem token_amounts_regimes_witness :
    ((0 : ℤ) < 10 ∧ (-3 : ℤ) ≤ 0) ∧ (((0 : ℚ), (0 : ℚ)) : ℚ × ℚ).2 = 0 := by
  refine ⟨⟨by decide, by decide⟩, ?_⟩
  exact (token_amounts_regimes (fun _ => 2) 0 10 5 (-3) ((0 : ℚ), (0 : ℚ))
    (by decide)).1 (by decide) (by with_unfolding_all rfl)

-- ---------------------------------------------------------------------------
-- C7: compute_tick_range.
-- ---------------------------------------------------------------------------

/-- C7.  For a non-negative width and a bias in `[0, 1]`,
`compute_tick_range tick width bias = (tick − left, tick + (width − left))`
with `left = ⌊width × bias⌋`; a bias outside `[0, 1]` fails validation
(raises, embedded `none`); and the spec's concrete example holds. -/
theorem compute_tick_range_spec (tick width : ℤ) (bias : ℚ) :
    (0 ≤ width → 0 ≤ bias → bias ≤ 1 →
      compute_tick_range tick width bias =
        some (tick - ⌊(width : ℚ) * bias⌋,
          tick + (width - ⌊(width : ℚ) * bias⌋))) ∧
    (bias < 0 ∨ 1 < bias → compute_tick_range tick width bias = none) ∧
    compute_tick_range 1500 100 (1 / 4) = some (1475, 1575) := by
  refine ⟨?_, ?_, ?_⟩
  · intro hw hb0 hb1
    have hq : (0 : ℚ) ≤ (width : ℚ) * bias :=
      mul_nonneg (by exact_mod_cast hw) hb0
    unfold compute_tick_range pyint
    rw [if_pos ⟨hb0, hb1⟩, if_pos hq]
  · intro hbad
    unfold compute_tick_range
    rw [if_neg]
    rintro ⟨h0, h1⟩
    rcases hbad with h | h
    · exact absurd h0 (not_le.mpr h)
    · exact absurd h1 (not_le.mpr h)
  · with_unfolding_all rfl

/-- Witness for C7's hypothesised branch at width 100, bias 1/4. -/
theorem compute_tick_range_spec_witness :
    ((0 : ℤ) ≤ 100 ∧ (0 : ℚ) ≤ 1 / 4 ∧ (1 / 4 : ℚ) ≤ 1) ∧
    compute_tick_range 1500 100 (1 / 4) =
      some (1500 - ⌊(100 : ℚ) * (1 / 4)⌋,
        1500 + (100 - ⌊(100 : ℚ) * (1 / 4)⌋)) := by
  refine ⟨⟨by decide, by with_unfolding_all decide, by with_unfolding_all decide⟩, ?_⟩
  exact (compute_tick_range_spec 1500 100 (1 / 4)).1 (by decide)
    (by with_unfolding_all decide) (by with_unfolding_all decide)

-- ---------------------------------------------------------------------------
-- C9: compute_realized_il guards.
-- ---------------------------------------------------------------------------

/-- C9.  `compute_realized_il` returns exactly 0 when the target ratio equals
the current ratio, exactly 0 when the entry ratio equals the current ratio
(zero denominator), and otherwise
`|target − current| / |entry − current| × full_il × 100`; in every case it
returns a value rather than raising a division error. -/
theorem compute_realized_il_spec (e c t f : ℚ) :
    (t = c → compute_realized_il e c t f = some 0) ∧
    (e = c → compute_realized_il e c t f = some 0) ∧
    (t ≠ c → e ≠ c →
      compute_realized_il e c t f = some (|t - c| / |e - c| * f * 100)) ∧
    (compute_realized_il e c t f).isSome = true := by
  refine ⟨?_, ?_, ?_, ?_⟩
  · intro ht
    unfold compute_realized_il
    rw [if_pos ht]
  · intro he
    unfold compute_realized_il
    by_cases ht : t = c
    · rw [if_pos ht]
    · rw [if_neg ht, if_pos (by rw [he, sub_self, abs_zero])]
  · intro ht he
    have hd : |e - c| ≠ 0 := by
      rw [abs_ne_zero]
      exact sub_ne_zero.mpr he
    unfold compute_realized_il
    rw [if_neg ht, if_neg hd, ddiv_ne_zero _ _ hd]
    rfl
  · obtain ⟨v, hv⟩ := compute_realized_il_isSome e c t f
    rw [hv]
    rfl

/-- Witness for C9's generic branch: entry 5, current 1, target 3, full 2
gives `2/4 × 2 × 100 = 100`. -/
theorem compute_realized_il_spec_witness :
    ((3 : ℚ) ≠ 1 ∧ (5 : ℚ) ≠ 1) ∧
    compute_realized_il 5 1 3 2 = some 100 := by
  refine ⟨⟨by norm_num, by norm_num⟩, ?_⟩
  have h := (compute_realized_il_spec 5 1 3 2).2.2.1 (by norm_num) (by norm_num)
  rw [h]
  with_unfolding_all rfl

-- ---------------------------------------------------------------------------
-- C10: ImpermanentLossTracker totality and the 0.5 default.
-- ---------------------------------------------------------------------------

/-- C10.  For non-negative token amounts, `ImpermanentLossTracker.__init__`
and `realize_il` always return (never raise); when the entry amounts sum to
zero, the stored entry token0 share defaults to `0.5`. -/
theorem il_tracker_total_default (entry_tick : ℤ) (e0 e1 : ℚ) (tl tu : ℤ)
    (st : ILState) (ts : ℤ) (n0 n1 : ℚ)
    (he0 : 0 ≤ e0) (he1 : 0 ≤ e1) (hn0 : 0 ≤ n0) (hn1 : 0 ≤ n1) :
    (∃ st0, ILTracker.init entry_tick e0 e1 tl tu = some st0 ∧
      (e0 + e1 = 0 → st0.entry_token0_ratio = 1 / 2)) ∧
    (∃ st2, ILTracker.realize_il st ts n0 n1 = some st2) := by
  constructor
  · unfold ILTracker.init ILTracker.token0_share
    by_cases h : e0 + e1 > 0
    · rw [if_pos h, ddiv_ne_zero _ _ (ne_of_gt h)]
      exact ⟨_, rfl, fun hz => absurd (hz ▸ h) (lt_irrefl 0)⟩
    · rw [if_neg h]
      exact ⟨_, rfl, fun _ => rfl⟩
  · unfold ILTracker.realize_il
    have hcur : ∃ cr, ILTracker.token0_share n0 n1 = some cr := by
      unfold ILTracker.token0_share
      by_cases h : n0 + n1 > 0
      · exact ⟨_, by rw [if_pos h, ddiv_ne_zero _ _ (ne_of_gt h)]⟩
      · exact ⟨_, by rw [if_neg h]⟩
    obtain ⟨cr, hcr⟩ := hcur
    rw [hcr]
    obtain ⟨v, hv⟩ := compute_realized_il_isSome st.entry_token0_ratio cr
      st.entry_token0_ratio (match st.il_series.getLast? with
        | some p => p.2
        | none => 0)
    simp only [Option.bind_eq_bind, Option.some_bind, hv]
    exact ⟨_, rfl⟩

/-- Witness for C10 at all-zero (hence degenerate) token amounts. -/
theorem il_tracker_total_default_witness :
    ((0 : ℚ) ≤ 0) ∧
    (∃ st0, ILTracker.init 7 0 0 0 1 = some st0 ∧
      ((0 : ℚ) + 0 = 0 → st0.entry_token0_ratio = 1 / 2)) ∧
    (∃ st2, ILTracker.realize_il ilStateW 5 0 0 = some st2) := by
  have h := il_tracker_total_default 7 0 0 0 1 ilStateW 5 0 0
    le_rfl le_rfl le_rfl le_rfl
  exact ⟨le_rfl, h.1, h.2⟩

-- ---------------------------------------------------------------------------
-- C8: FeeCalculator.track alignment and running-total invariant.
-- ---------------------------------------------------------------------------

theorem track_all_invariant (p : Position) (l : List (Swap × Bool)) :
    ∀ st st2, FeeCalculator.track_all p st l = some st2 →
      st2.timestamps.length = st.timestamps.length + l.length ∧
      st2.fees.length = st.fees.length + l.length ∧
      (st.total_fee.token0 = (st.fees.map Fee.token0).sum →
        st2.total_fee.token0 = (st2.fees.map Fee.token0).sum) ∧
      (st.total_fee.token1 = (st.fees.map Fee.token1).sum →
        st2.total_fee.token1 = (st2.fees.map Fee.token1).sum) ∧
      ((∀ q ∈ l, q.2 = false) → st2.total_fee = st.total_fee) := by
  induction l with
  | nil =>
      intro st st2 h
      obtain rfl : st = st2 := Option.some.injEq _ _ ▸ h
      simp
  | cons q l ih =>
      intro st st2 h
      simp only [FeeCalculator.track_all, ofoldl, Option.bind_eq_some] at h
      obtain ⟨st1, hstep, hrest⟩ := h
      have ihr := ih st1 st2 hrest
      unfold FeeCalculator.track at hstep
      simp only [Option.bind_eq_bind, Option.bind_eq_some] at hstep
      obtain ⟨fee, -, hif⟩ := hstep
      cases hb : q.2 with
      | true =>
          rw [hb] at hif
          simp only [if_true, Option.some.injEq] at hif
          subst hif
          refine ⟨by simpa [Nat.add_comm, Nat.add_left_comm] using ihr.1,
            by simpa [Nat.add_comm, Nat.add_left_comm] using ihr.2.1, ?_, ?_, ?_⟩
          · intro hs
            exact ihr.2.2.1 (by simp [hs])
          · intro hs
            exact ihr.2.2.2.1 (by simp [hs])
          · intro hall
            have : q.2 = false := hall q (by simp)
            rw [hb] at this
            cases this
      | false =>
          rw [hb] at hif
          simp only [if_false, Option.some.injEq, Bool.false_eq_true] at hif
          subst hif
          refine ⟨by simpa [Nat.add_comm, Nat.add_left_comm] using ihr.1,
            by simpa [Nat.add_comm, Nat.add_left_comm] using ihr.2.1, ?_, ?_, ?_⟩
          · intro hs
            exact ihr.2.2.1 (by simp [hs])
          · intro hs
            exact ihr.2.2.2.1 (by simp [hs])
          · intro hall
            exact ihr.2.2.2.2 (fun q2 hq2 => hall q2 (by simp [hq2]))

/-- C8.  Every `track` call appends exactly one timestamp and one fee record
(zero when inactive), so after any successful call sequence from a fresh
calculator the recorded series has one entry per tracked swap, the running
total on each token equals the sum of the recorded per-swap fees, and an
all-inactive sequence totals exactly zero. -/
theorem fee_track_alignment_total (p : Position) (l : List (Swap × Bool))
    (st2 : FeeCalcState)
    (h : FeeCalculator.track_all p FeeCalcState.init l = some st2) :
    st2.timestamps.length = l.length ∧ st2.fees.length = l.length ∧
    st2.total_fee.token0 = (st2.fees.map Fee.token0).sum ∧
    st2.total_fee.token1 = (st2.fees.map Fee.token1).sum ∧
    ((∀ q ∈ l, q.2 = false) → st2.total_fee = ⟨0, 0⟩) := by
  have hinv := track_all_invariant p l FeeCalcState.init st2 h
  refine ⟨by simpa [FeeCalcState.init] using hinv.1,
    by simpa [FeeCalcState.init] using hinv.2.1,
    hinv.2.2.1 (by simp [FeeCalcState.init]),
    hinv.2.2.2.1 (by simp [FeeCalcState.init]),
    fun hall => by simpa [FeeCalcState.init] using hinv.2.2.2.2 hall⟩

/-- Witness for C8 on a two-swap sequence (one active, one inactive). -/
theorem fee_track_alignment_total_witness :
    FeeCalculator.track_all posW FeeCalcState.init
      [(swapW, true), (swapW, false)] = some feeStW ∧
    feeStW.timestamps.length = 2 ∧
    feeStW.total_fee.token0 = (feeStW.fees.map Fee.token0).sum := by
  have hh : FeeCalculator.track_all posW FeeCalcState.init
      [(swapW, true), (swapW, false)] = some feeStW := by
    with_unfolding_all rfl
  have h := fee_track_alignment_total posW [(swapW, true), (swapW, false)]
    feeStW hh
  exact ⟨hh, h.1, h.2.2.1⟩

/-- Witness for C2's amended theorem at a concrete two-call sequence. -/
theorem oord_run_amended_witness :
    oordStrat.out_of_range_since = none ∧
    OutOfRangeDuration.run_calls oordStrat [oordCtxIn, oordCtxOut] =
      some ([false, true], oordStrat) := by
  refine ⟨rfl, ?_⟩
  have h := oord_run_amended oordStrat rfl [oordCtxIn, oordCtxOut] (by decide)
  rw [h]
  decide

-- ---------------------------------------------------------------------------
-- C3: what the rebalancing step of _process_swap writes back.
-- ---------------------------------------------------------------------------

/-- C3 counterexample.  On a concrete rebalancing step (OutOfRange strategy,
position `[30, 40]` with liquidity 5, swap tick 20): the pipeline succeeds,
writes the new bounds `(15, 25)` and the recomputed `amount1 = 125/6` while
`amount0` stays at its activity-recomputed value `1/24`, but the position's
`liquidity` stays 5 even though the recomputed liquidity is `25/6 ≠ 5` — so
the claim that all three of bounds/amount1/liquidity are written back is
false. -/
theorem rebalance_liquidity_counterexample :
    (processSwap sqLin ilFnZero OutOfRange.should_rebalance OutOfRange.rebalance
      OutOfRange.get_event_at 0 ctxC3 swapC3).map
        (fun c2 => (c2.position.tick_lower, c2.position.tick_upper,
          c2.position.amount0, c2.position.amount1, c2.position.liquidity)) =
      some (15, 25, 1 / 24, 125 / 6, 5) ∧
    compute_token1_for_fixed_token0 sqLin (1 / 24) 15 25 20 =
      some (25 / 6, 125 / 6) ∧
    (25 / 6 : ℚ) ≠ 5 := by
  refine ⟨by with_unfolding_all rfl, by with_unfolding_all rfl, by norm_num⟩

/-- Steps 4–9 of the pipeline never touch the position. -/
theorem postRebalance_position {R : Type} (ilFn : ℤ → ℤ → ℤ → ℤ → Option ℚ)
    (c : CtxState R) (swap : Swap) (t : ℤ) (y : CtxState R)
    (h : postRebalance ilFn c swap t = some y) : y.position = c.position := by
  unfold postRebalance at h
  simp only [Option.bind_eq_bind, Option.bind_eq_some] at h
  obtain ⟨cal, -, h⟩ := h
  rcases hil : c.il_tracker with - | stI <;> rw [hil] at h <;>
    simp only [Option.some_bind, Option.bind_eq_bind, Option.bind_eq_some] at h
  · rcases hapr : c.apr_tracker with - | stA <;> rw [hapr] at h <;>
      simp only [Option.some_bind, Option.bind_eq_bind, Option.bind_eq_some] at h
    · obtain rfl := Option.some.inj h
      rfl
    · obtain ⟨lf, -, h⟩ := h
      obtain rfl := Option.some.inj h
      rfl
  · obtain ⟨st2, -, h⟩ := h
    rcases hapr : c.apr_tracker with - | stA <;> rw [hapr] at h <;>
      simp only [Option.some_bind, Option.bind_eq_bind, Option.bind_eq_some] at h
    · obtain rfl := Option.some.inj h
      rfl
    · obtain ⟨lf, -, h⟩ := h
      obtain rfl := Option.some.inj h
      rfl

/-- C3 amended.  In the runner's per-swap pipeline, when the attached
rebalancer's `should_rebalance` holds, the runner computes new bounds,
recomputes liquidity and the paired token1 amount holding token0 fixed, and
replaces the position's bounds and `amount1` in place; `amount0` keeps its
activity-recomputed value, and the position's `liquidity` field is left
unchanged (the recomputed liquidity is discarded). -/
theorem process_swap_rebalance_frame {R : Type}
    (sq : ℤ → ℚ) (ilFn : ℤ → ℤ → ℤ → ℤ → Option ℚ)
    (shouldReb : R → RebalancerContext → Option (Bool × R))
    (doReb : R → RebalancerContext → ℚ → Option ((ℤ × ℤ) × R))
    (getEventAt : R → ℤ → Option RebalanceEvent)
    (c : CtxState R) (swap : Swap) (t : ℤ) (r r1 r2 : R) (nl nu : ℤ)
    (a0 a1 L na1 : ℚ) (c2 : CtxState R)
    (hreb : c.rebalancer = some r)
    (hact : compute_token_amounts_from_liquidity sq c.position.tick_lower
      c.position.tick_upper c.position.liquidity swap.tick = some (a0, a1))
    (hsh : shouldReb r ⟨swap.tick, t, c.position.tick_lower,
      c.position.tick_upper, c.created_at⟩ = some (true, r1))
    (hdo : doReb r1 ⟨swap.tick, t, c.position.tick_lower, c.position.tick_upper,
      c.created_at⟩ (1 / 2) = some ((nl, nu), r2))
    (hfix : compute_token1_for_fixed_token0 sq a0 nl nu swap.tick = some (L, na1))
    (hrun : processSwap sq ilFn shouldReb doReb getEventAt t c swap = some c2) :
    c2.position.tick_lower = nl ∧ c2.position.tick_upper = nu ∧
    c2.position.amount1 = na1 ∧ c2.position.amount0 = a0 ∧
    c2.position.liquidity = c.position.liquidity := by
  unfold processSwap at hrun
  simp only [Option.bind_eq_bind, Option.bind_eq_some] at hrun
  obtain ⟨cA, hA, cB, hB, hpost⟩ := hrun
  unfold activityTrack at hA
  dsimp only at hA
  rw [hact] at hA
  simp only [Option.bind_eq_bind, Option.some_bind] at hA
  have hcA := (Option.some.inj hA).symm
  subst hcA
  unfold applyRebalance at hB
  dsimp only at hB
  rw [hreb] at hB
  simp only [Option.bind_eq_bind, Option.bind_eq_some] at hB
  obtain ⟨⟨should, r1x⟩, hshx, hB⟩ := hB
  rw [hsh] at hshx
  injection Option.some.inj hshx with h1 h2
  subst h1
  subst h2
  rw [if_pos rfl] at hB
  dsimp only at hB
  simp only [Option.bind_eq_bind, Option.bind_eq_some] at hB
  obtain ⟨⟨⟨nlx, nux⟩, r2x⟩, hdox, hB⟩ := hB
  rw [hdo] at hdox
  injection Option.some.inj hdox with h3 h4
  injection h3 with h3a h3b
  subst h3a
  subst h3b
  subst h4
  dsimp only at hB
  obtain ⟨⟨Lx, na1x⟩, hfixx, hB⟩ := hB
  rw [hfix] at hfixx
  injection Option.some.inj hfixx with h5 h6
  subst h5
  subst h6
  dsimp only at hB
  have hBpos : cB.position = { c.position with
      tick_lower := nl
      tick_upper := nu
      amount0 := a0
      amount1 := na1 } := by
    cases hev : getEventAt r2 t <;> rw [hev] at hB <;>
      (obtain rfl := Option.some.inj hB; rfl)
  have hy := postRebalance_position ilFn cB swap t c2 hpost
  rw [hy, hBpos]
  exact ⟨rfl, rfl, rfl, rfl, rfl⟩

/-- Witness for C3's amended theorem on the concrete rebalancing step. -/
theorem process_swap_rebalance_frame_witness :
    ∃ c2, processSwap sqLin ilFnZero OutOfRange.should_rebalance
      OutOfRange.rebalance OutOfRange.get_event_at 0 ctxC3 swapC3 = some c2 ∧
      c2.position.tick_lower = 15 ∧ c2.position.tick_upper = 25 ∧
      c2.position.amount1 = 125 / 6 ∧ c2.position.amount0 = 1 / 24 ∧
      c2.position.liquidity = ctxC3.position.liquidity := by
  have hs : (processSwap sqLin ilFnZero OutOfRange.should_rebalance
      OutOfRange.rebalance OutOfRange.get_event_at 0 ctxC3 swapC3).isSome
      = true := by
    with_unfolding_all rfl
  obtain ⟨c2, hc2⟩ : ∃ c2, processSwap sqLin ilFnZero
      OutOfRange.should_rebalance OutOfRange.rebalance OutOfRange.get_event_at
      0 ctxC3 swapC3 = some c2 := ⟨_, (Option.some_get hs).symm⟩
  have h := process_swap_rebalance_frame sqLin ilFnZero
    OutOfRange.should_rebalance OutOfRange.rebalance OutOfRange.get_event_at
    ctxC3 swapC3 0 ⟨[]⟩ ⟨[]⟩ ⟨[⟨0, 20, 15, 25⟩]⟩ 15 25 (1 / 24) 0 (25 / 6)
    (125 / 6) c2 rfl (by with_unfolding_all rfl) (by with_unfolding_all rfl)
    (by with_unfolding_all rfl) (by with_unfolding_all rfl) hc2
  exact ⟨c2, hc2, h.1, h.2.1, h.2.2.1, h.2.2.2.1, h.2.2.2.2⟩

-- ---------------------------------------------------------------------------
-- Generic facts about the loop combinators and sorted-dedup timelines.
-- ---------------------------------------------------------------------------

theorem ofoldl_append {σ α : Type} (f : σ → α → Option σ) (l1 l2 : List α) :
    ∀ s, ofoldl f s (l1 ++ l2) =
      (ofoldl f s l1).bind (fun s2 => ofoldl f s2 l2) := by
  induction l1 with
  | nil => intro s; simp [ofoldl]
  | cons a l ih =>
      intro s
      simp only [List.cons_append, ofoldl]
      cases f s a <;> simp [ih]

theorem ofoldl_congr {σ α : Type} (f g : σ → α → Option σ) (l : List α)
    (h : ∀ a ∈ l, ∀ s, f s a = g s a) : ∀ s, ofoldl f s l = ofoldl g s l := by
  induction l with
  | nil => intro s; rfl
  | cons a l ih =>
      intro s
      simp only [ofoldl, h a (List.mem_cons_self a l)]
      cases g s a with
      | none => rfl
      | some s2 =>
          exact ih (fun a2 ha2 s3 => h a2 (List.mem_cons_of_mem a ha2) s3) s2

theorem ofoldl_preserve {σ α β : Type} (f : σ → α → Option σ) (g : σ → β)
    (hf : ∀ s a s2, f s a = some s2 → g s2 = g s) (l : List α) :
    ∀ s s2, ofoldl f s l = some s2 → g s2 = g s := by
  induction l with
  | nil =>
      intro s s2 h
      rw [(Option.some.inj h)]
  | cons a l ih =>
      intro s s2 h
      simp only [ofoldl, Option.bind_eq_some] at h
      obtain ⟨s1, h1, h2⟩ := h
      rw [ih s1 s2 h2, hf s a s1 h1]

theorem omap_some {α : Type} (l : List α) : omap (fun a => some a) l = some l := by
  induction l with
  | nil => rfl
  | cons a l ih => simp [omap, ih]

theorem omap_bind_omap {α β γ : Type} (f : α → Option β) (g : β → Option γ)
    (l : List α) :
    (omap f l).bind (omap g) = omap (fun a => (f a).bind g) l := by
  induction l with
  | nil => rfl
  | cons a l ih =>
      simp only [omap]
      cases hfa : f a with
      | none => rfl
      | some b =>
          simp only [Option.some_bind]
          cases hg : g b with
          | none =>
              cases hol : omap f l <;>
                simp [omap, hol, hg]
          | some cc =>
              cases hol : omap f l with
              | none =>
                  rw [hol] at ih
                  simp only [Option.none_bind] at ih
                  simp [hol, hg, ← ih]
              | some bs =>
                  rw [hol] at ih
                  simp only [Option.some_bind] at ih
                  simp [hol, hg, ← ih, omap]

theorem omap_length {α β : Type} (f : α → Option β) (l : List α)
    (l2 : List β) : ∀ h : omap f l = some l2, l2.length = l.length := by
  induction l generalizing l2 with
  | nil =>
      intro h
      rw [← Option.some.inj h]
      rfl
  | cons a l ih =>
      intro h
      simp only [omap, Option.bind_eq_some] at h
      obtain ⟨b, -, bs, hbs, hl2⟩ := h
      rw [← Option.some.inj hl2]
      simp [ih bs hbs]

theorem omap_get? {α β : Type} (f : α → Option β) (l : List α) (l2 : List β) :
    ∀ (h : omap f l = some l2) (i : ℕ) (a : α), l.get? i = some a →
      ∃ b, f a = some b ∧ l2.get? i = some b := by
  induction l generalizing l2 with
  | nil =>
      intro h i a ha
      simp at ha
  | cons a0 l ih =>
      intro h i a ha
      simp only [omap, Option.bind_eq_some] at h
      obtain ⟨b, hb, bs, hbs, hl2⟩ := h
      rw [← Option.some.inj hl2]
      cases i with
      | zero =>
          obtain rfl : a0 = a := Option.some.inj ha
          exact ⟨b, hb, rfl⟩
      | succ i =>
          exact ih bs hbs i a ha

theorem omap_mem_forall {α β : Type} (f : α → Option β) (l : List α)
    (l2 : List β) : ∀ (h : omap f l = some l2) (a : α), a ∈ l →
      ∃ b, f a = some b := by
  induction l generalizing l2 with
  | nil =>
      intro h a ha
      cases ha
  | cons a0 l ih =>
      intro h a ha
      simp only [omap, Option.bind_eq_some] at h
      obtain ⟨b, hb, bs, hbs, -⟩ := h
      rcases List.mem_cons.mp ha with rfl | ha2
      · exact ⟨b, hb⟩
      · exact ih bs hbs a ha2

theorem omap_total {α β : Type} (f : α → Option β) (l : List α)
    (h : ∀ a ∈ l, ∃ b, f a = some b) : ∃ l2, omap f l = some l2 := by
  induction l with
  | nil => exact ⟨[], rfl⟩
  | cons a l ih =>
      obtain ⟨b, hb⟩ := h a (List.mem_cons_self a l)
      obtain ⟨bs, hbs⟩ := ih (fun a2 ha2 => h a2 (List.mem_cons_of_mem a ha2))
      exact ⟨b :: bs, by simp [omap, hb, hbs]⟩

theorem omap_congr {α β : Type} (f g : α → Option β) (l : List α)
    (h : ∀ a ∈ l, f a = g a) : omap f l = omap g l := by
  induction l with
  | nil => rfl
  | cons a l ih =>
      simp only [omap, h a (List.mem_cons_self a l)]
      exact congrArg _ (funext fun b =>
        congrArg (fun o => Option.bind o _)
          (ih (fun a2 ha2 => h a2 (List.mem_cons_of_mem a ha2))))

theorem mem_dedupSort (l : List ℤ) (x : ℤ) : x ∈ dedupSort l ↔ x ∈ l := by
  unfold dedupSort
  rw [(List.perm_insertionSort _ _).mem_iff, List.mem_dedup]

theorem sorted_dedupSort (l : List ℤ) : (dedupSort l).Sorted (· ≤ ·) :=
  List.sorted_insertionSort _ _

theorem nodup_dedupSort (l : List ℤ) : (dedupSort l).Nodup :=
  (List.perm_insertionSort _ _).nodup_iff.mpr (List.nodup_dedup l)

theorem sorted_nodup_ext (T T2 : List ℤ) (hs : T.Sorted (· ≤ ·))
    (hs2 : T2.Sorted (· ≤ ·)) (hn : T.Nodup) (hn2 : T2.Nodup)
    (hm : ∀ x, x ∈ T ↔ x ∈ T2) : T = T2 :=
  List.eq_of_perm_of_sorted ((List.perm_ext_iff_of_nodup hn hn2).mpr hm) hs hs2

-- ---------------------------------------------------------------------------
-- The per-swap pipeline never touches the context's static swap series, so a
-- context's trajectory only depends on the timestamps that group its swaps.
-- ---------------------------------------------------------------------------

theorem activityTrack_swaps {R : Type} (sq : ℤ → ℚ) (c : CtxState R)
    (swap : Swap) (y : CtxState R) (h : activityTrack sq c swap = some y) :
    y.swaps = c.swaps := by
  unfold activityTrack at h
  simp only [Option.bind_eq_bind, Option.bind_eq_some] at h
  obtain ⟨⟨a0, a1⟩, -, h⟩ := h
  obtain rfl := Option.some.inj h
  rfl

theorem applyRebalance_swaps {R : Type} (sq : ℤ → ℚ)
    (shouldReb : R → RebalancerContext → Option (Bool × R))
    (doReb : R → RebalancerContext → ℚ → Option ((ℤ × ℤ) × R))
    (getEventAt : R → ℤ → Option RebalanceEvent)
    (c : CtxState R) (swap : Swap) (t : ℤ) (y : CtxState R)
    (h : applyRebalance sq shouldReb doReb getEventAt c swap t = some y) :
    y.swaps = c.swaps := by
  unfold applyRebalance at h
  cases hreb : c.rebalancer with
  | none =>
      rw [hreb] at h
      obtain rfl := Option.some.inj h
      rfl
  | some r =>
      rw [hreb] at h
      simp only [Option.bind_eq_bind, Option.bind_eq_some] at h
      obtain ⟨⟨should, r1⟩, -, h⟩ := h
      cases should with
      | false =>
          rw [if_neg (by simp)] at h
          obtain rfl := Option.some.inj h
          rfl
      | true =>
          rw [if_pos rfl] at h
          dsimp only at h
          simp only [Option.bind_eq_bind, Option.bind_eq_some] at h
          obtain ⟨⟨⟨nl, nu⟩, r2⟩, -, h⟩ := h
          obtain ⟨⟨L, na1⟩, -, h⟩ := h
          cases hev : getEventAt r2 t <;> rw [hev] at h <;>
            (obtain rfl := Option.some.inj h; rfl)

theorem postRebalance_swaps {R : Type} (ilFn : ℤ → ℤ → ℤ → ℤ → Option ℚ)
    (c : CtxState R) (swap : Swap) (t : ℤ) (y : CtxState R)
    (h : postRebalance ilFn c swap t = some y) : y.swaps = c.swaps := by
  unfold postRebalance at h
  simp only [Option.bind_eq_bind, Option.bind_eq_some] at h
  obtain ⟨cal, -, h⟩ := h
  rcases hil : c.il_tracker with - | stI <;> rw [hil] at h <;>
    simp only [Option.some_bind, Option.bind_eq_bind, Option.bind_eq_some] at h
  · rcases hapr : c.apr_tracker with - | stA <;> rw [hapr] at h <;>
      simp only [Option.some_bind, Option.bind_eq_bind, Option.bind_eq_some] at h
    · obtain rfl := Option.some.inj h
      rfl
    · obtain ⟨lf, -, h⟩ := h
      obtain rfl := Option.some.inj h
      rfl
  · obtain ⟨st2, -, h⟩ := h
    rcases hapr : c.apr_tracker with - | stA <;> rw [hapr] at h <;>
      simp only [Option.some_bind, Option.bind_eq_bind, Option.bind_eq_some] at h
    · obtain rfl := Option.some.inj h
      rfl
    · obtain ⟨lf, -, h⟩ := h
      obtain rfl := Option.some.inj h
      rfl

theorem processSwap_swaps {R : Type} (sq : ℤ → ℚ)
    (ilFn : ℤ → ℤ → ℤ → ℤ → Option ℚ)
    (shouldReb : R → RebalancerContext → Option (Bool × R))
    (doReb : R → RebalancerContext → ℚ → Option ((ℤ × ℤ) × R))
    (getEventAt : R → ℤ → Option RebalanceEvent)
    (t : ℤ) (c : CtxState R) (swap : Swap) (y : CtxState R)
    (h : processSwap sq ilFn shouldReb doReb getEventAt t c swap = some y) :
    y.swaps = c.swaps := by
  unfold processSwap at h
  simp only [Option.bind_eq_bind, Option.bind_eq_some] at h
  obtain ⟨cA, hA, cB, hB, hpost⟩ := h
  rw [postRebalance_swaps ilFn cB swap t y hpost,
    applyRebalance_swaps sq shouldReb doReb getEventAt cA swap t cB hB,
    activityTrack_swaps sq _ swap cA hA]

theorem processAt_swaps {R : Type} (sq : ℤ → ℚ)
    (ilFn : ℤ → ℤ → ℤ → ℤ → Option ℚ)
    (shouldReb : R → RebalancerContext → Option (Bool × R))
    (doReb : R → RebalancerContext → ℚ → Option ((ℤ × ℤ) × R))
    (getEventAt : R → ℤ → Option RebalanceEvent)
    (t : ℤ) (c : CtxState R) (y : CtxState R)
    (h : processAt sq ilFn shouldReb doReb getEventAt t c = some y) :
    y.swaps = c.swaps := by
  unfold processAt at h
  exact ofoldl_preserve _ CtxState.swaps
    (fun s a s2 h2 => processSwap_swaps sq ilFn shouldReb doReb getEventAt
      t s a s2 h2) _ c y h

theorem processAt_eq_groupstep {R : Type} (sq : ℤ → ℚ)
    (ilFn : ℤ → ℤ → ℤ → ℤ → Option ℚ)
    (shouldReb : R → RebalancerContext → Option (Bool × R))
    (doReb : R → RebalancerContext → ℚ → Option ((ℤ × ℤ) × R))
    (getEventAt : R → ℤ → Option RebalanceEvent)
    (t : ℤ) (c : CtxState R) :
    processAt sq ilFn shouldReb doReb getEventAt t c =
      ofoldl (fun c2 s => processSwap sq ilFn shouldReb doReb getEventAt
        s.timestamp c2 s) c
        (c.swaps.filter (fun s => decide (s.timestamp = t))) := by
  unfold processAt
  refine ofoldl_congr _ _ _ (fun s hs s2 => ?_) c
  have hts : s.timestamp = t := of_decide_eq_true (List.mem_filter.mp hs).2
  rw [hts]

theorem runOver_eq_groupJoin {R : Type} (sq : ℤ → ℚ)
    (ilFn : ℤ → ℤ → ℤ → ℤ → Option ℚ)
    (shouldReb : R → RebalancerContext → Option (Bool × R))
    (doReb : R → RebalancerContext → ℚ → Option ((ℤ × ℤ) × R))
    (getEventAt : R → ℤ → Option RebalanceEvent)
    (T : List ℤ) : ∀ c : CtxState R,
    runOver sq ilFn shouldReb doReb getEventAt T c =
      ofoldl (fun c2 s => processSwap sq ilFn shouldReb doReb getEventAt
        s.timestamp c2 s) c (groupJoin T c.swaps) := by
  induction T with
  | nil => intro c; rfl
  | cons t T ih =>
      intro c
      have hcons : groupJoin (t :: T) c.swaps =
          c.swaps.filter (fun s => decide (s.timestamp = t)) ++
            groupJoin T c.swaps := by
        simp [groupJoin]
      rw [hcons, ofoldl_append,
        ← processAt_eq_groupstep sq ilFn shouldReb doReb getEventAt t c]
      show (processAt sq ilFn shouldReb doReb getEventAt t c).bind
        (fun c2 => runOver sq ilFn shouldReb doReb getEventAt T c2) = _
      cases hp : processAt sq ilFn shouldReb doReb getEventAt t c with
      | none => rfl
      | some c2 =>
          simp only [Option.some_bind]
          rw [ih c2,
            processAt_swaps sq ilFn shouldReb doReb getEventAt t c c2 hp]

theorem groupJoin_drop_empty (S : List Swap) (T : List ℤ) :
    groupJoin T S =
      groupJoin (T.filter (fun t => decide (t ∈ S.map Swap.timestamp))) S := by
  induction T with
  | nil => rfl
  | cons t T ih =>
      have hcons : groupJoin (t :: T) S =
          S.filter (fun s => decide (s.timestamp = t)) ++ groupJoin T S := by
        simp [groupJoin]
      by_cases hm : t ∈ S.map Swap.timestamp
      · rw [hcons, List.filter_cons, if_pos (by simpa using hm)]
        have hcons2 : groupJoin (t :: T.filter
            (fun t => decide (t ∈ S.map Swap.timestamp))) S =
            S.filter (fun s => decide (s.timestamp = t)) ++
              groupJoin (T.filter
                (fun t => decide (t ∈ S.map Swap.timestamp))) S := by
          simp [groupJoin]
        rw [hcons2, ih]
      · have hnil : S.filter (fun s => decide (s.timestamp = t)) = [] := by
          rw [List.filter_eq_nil_iff]
          intro s hs hdec
          exact hm (List.mem_map.mpr ⟨s, hs, of_decide_eq_true hdec⟩)
        rw [hcons, hnil, List.nil_append, List.filter_cons,
          if_neg (by simpa using hm)]
        exact ih

theorem runOver_timeline_invariant {R : Type} (sq : ℤ → ℚ)
    (ilFn : ℤ → ℤ → ℤ → ℤ → Option ℚ)
    (shouldReb : R → RebalancerContext → Option (Bool × R))
    (doReb : R → RebalancerContext → ℚ → Option ((ℤ × ℤ) × R))
    (getEventAt : R → ℤ → Option RebalanceEvent)
    (T : List ℤ) (c : CtxState R)
    (hsorted : T.Sorted (· ≤ ·)) (hnodup : T.Nodup)
    (hsup : ∀ x ∈ c.swaps.map Swap.timestamp, x ∈ T) :
    runOver sq ilFn shouldReb doReb getEventAt T c =
      runOver sq ilFn shouldReb doReb getEventAt
        (dedupSort (c.swaps.map Swap.timestamp)) c := by
  rw [runOver_eq_groupJoin, runOver_eq_groupJoin,
    groupJoin_drop_empty c.swaps T,
    groupJoin_drop_empty c.swaps (dedupSort (c.swaps.map Swap.timestamp))]
  have hfeq : T.filter (fun t => decide (t ∈ c.swaps.map Swap.timestamp)) =
      (dedupSort (c.swaps.map Swap.timestamp)).filter
        (fun t => decide (t ∈ c.swaps.map Swap.timestamp)) := by
    apply sorted_nodup_ext
    · exact List.Pairwise.filter _ hsorted
    · exact List.Pairwise.filter _ (sorted_dedupSort _)
    · exact List.Nodup.filter _ hnodup
    · exact List.Nodup.filter _ (nodup_dedupSort _)
    · intro x
      simp only [List.mem_filter, decide_eq_true_eq, mem_dedupSort]
      constructor
      · rintro ⟨-, hx⟩
        exact ⟨hx, hx⟩
      · rintro ⟨-, hx⟩
        exact ⟨hsup x hx, hx⟩
  rw [hfeq]

theorem runLoop_eq_omap {R : Type} (sq : ℤ → ℚ)
    (ilFn : ℤ → ℤ → ℤ → ℤ → Option ℚ)
    (shouldReb : R → RebalancerContext → Option (Bool × R))
    (doReb : R → RebalancerContext → ℚ → Option ((ℤ × ℤ) × R))
    (getEventAt : R → ℤ → Option RebalanceEvent)
    (T : List ℤ) : ∀ cs : List (CtxState R),
    runLoop sq ilFn shouldReb doReb getEventAt T cs =
      omap (fun c => runOver sq ilFn shouldReb doReb getEventAt T c) cs := by
  induction T with
  | nil =>
      intro cs
      exact ((omap_congr
        (fun c => runOver sq ilFn shouldReb doReb getEventAt ([] : List ℤ) c)
        (fun c => some c) cs (fun c _ => rfl)).trans (omap_some cs)).symm
  | cons t T ih =>
      intro cs
      show (omap (processAt sq ilFn shouldReb doReb getEventAt t) cs).bind
        (fun cs2 => runLoop sq ilFn shouldReb doReb getEventAt T cs2) = _
      have hstep : (omap (processAt sq ilFn shouldReb doReb getEventAt t)
          cs).bind
          (fun cs2 => runLoop sq ilFn shouldReb doReb getEventAt T cs2) =
          (omap (processAt sq ilFn shouldReb doReb getEventAt t) cs).bind
            (omap (fun c => runOver sq ilFn shouldReb doReb getEventAt T c)) := by
        cases homap : omap (processAt sq ilFn shouldReb doReb getEventAt t) cs
        · rfl
        · simp only [Option.some_bind]
          exact ih _
      rw [hstep, omap_bind_omap]
      rfl

theorem finalizeCtx_apr {R : Type} (T : List ℤ) (c : CtxState R)
    (r : BacktestResult) (h : finalizeCtx T c = some r) :
    (match c.apr_tracker with
      | some st => APRTracker.compute_apr_on_dates st (dedupSort (T.map dayOf))
      | none => some []) = some r.apr_series := by
  unfold finalizeCtx at h
  cases hat : c.apr_tracker with
  | none =>
      rw [hat] at h
      simp only [Option.some_bind] at h
      obtain rfl := Option.some.inj h
      rfl
  | some st =>
      rw [hat] at h
      simp only [Option.bind_eq_bind, Option.bind_eq_some] at h
      obtain ⟨apr, hapr, h⟩ := h
      obtain rfl := Option.some.inj h
      exact hapr

theorem finalizeCtx_exceptAPR {R : Type} (T T2 : List ℤ) (c : CtxState R)
    (r r2 : BacktestResult) (h : finalizeCtx T c = some r)
    (h2 : finalizeCtx T2 c = some r2) : exceptAPR r = exceptAPR r2 := by
  unfold finalizeCtx at h h2
  cases hat : c.apr_tracker with
  | none =>
      rw [hat] at h h2
      simp only [Option.some_bind] at h h2
      obtain rfl := Option.some.inj h
      obtain rfl := Option.some.inj h2
      rfl
  | some st =>
      rw [hat] at h h2
      simp only [Option.bind_eq_bind, Option.bind_eq_some] at h h2
      obtain ⟨apr, -, h⟩ := h
      obtain ⟨apr2, -, h2⟩ := h2
      obtain rfl := Option.some.inj h
      obtain rfl := Option.some.inj h2
      rfl

theorem finalizeCtx_total_of_subset {R : Type} (T T2 : List ℤ)
    (c : CtxState R) (r : BacktestResult) (h : finalizeCtx T c = some r)
    (hsub : ∀ q ∈ dedupSort (T2.map dayOf), q ∈ dedupSort (T.map dayOf)) :
    ∃ r2, finalizeCtx T2 c = some r2 := by
  unfold finalizeCtx at h ⊢
  cases hat : c.apr_tracker with
  | none =>
      exact ⟨_, rfl⟩
  | some st =>
      rw [hat] at h
      simp only [Option.bind_eq_bind, Option.bind_eq_some] at h
      obtain ⟨apr, hapr, -⟩ := h
      unfold APRTracker.compute_apr_on_dates at hapr ⊢
      cases hsd : st.start_date with
      | none =>
          simp only [hsd]
          exact ⟨_, rfl⟩
      | some sd =>
          rw [hsd] at hapr
          simp only [Option.bind_eq_bind, Option.bind_eq_some] at hapr
          obtain ⟨rows, hrows, -⟩ := hapr
          have hall := omap_mem_forall _ _ _ hrows
          obtain ⟨rows2, hrows2⟩ := omap_total _ _
            (fun q hq => hall q (hsub q hq))
          simp only [hsd, hrows2, Option.bind_eq_bind, Option.some_bind]
          exact ⟨_, rfl⟩

theorem globalTimestamps_singleton {R : Type} (c : CtxState R) :
    globalTimestamps [c] = dedupSort (c.swaps.map Swap.timestamp) := by
  simp [globalTimestamps]

/-- C4 amended.  When the global-clock runner succeeds on a list of contexts,
then for each context: the runner drives it to exactly the same final state
`cf` that running it alone (on its own merged timeline) produces — contexts
are isolated — and every component of its result bundle except the
return/APR series is identical to the solo run's.  The APR series differs
only in the query dates: the merged run queries the context's return tracker
at every distinct calendar day of the *merged* timeline, while the solo run
queries the same final tracker at the days of the context's own timeline. -/
theorem run_isolation {R : Type}
    (sq : ℤ → ℚ) (ilFn : ℤ → ℤ → ℤ → ℤ → Option ℚ)
    (shouldReb : R → RebalancerContext → Option (Bool × R))
    (doReb : R → RebalancerContext → ℚ → Option ((ℤ × ℤ) × R))
    (getEventAt : R → ℤ → Option RebalanceEvent)
    (cs : List (CtxState R)) (rs : List BacktestResult) (i : ℕ)
    (c : CtxState R)
    (h1 : run sq ilFn shouldReb doReb getEventAt cs = some rs)
    (h2 : cs.get? i = some c) :
    ∃ cf ri r,
      runOver sq ilFn shouldReb doReb getEventAt (globalTimestamps cs) c
        = some cf ∧
      runOver sq ilFn shouldReb doReb getEventAt (globalTimestamps [c]) c
        = some cf ∧
      rs.get? i = some ri ∧
      finalizeCtx (globalTimestamps cs) cf = some ri ∧
      run sq ilFn shouldReb doReb getEventAt [c] = some [r] ∧
      finalizeCtx (globalTimestamps [c]) cf = some r ∧
      exceptAPR ri = exceptAPR r := by
  unfold run at h1
  simp only [Option.bind_eq_bind, Option.bind_eq_some] at h1
  obtain ⟨sts, hloop, hfin⟩ := h1
  rw [runLoop_eq_omap] at hloop
  obtain ⟨cf, hcf, hsts⟩ := omap_get? _ _ _ hloop i c h2
  obtain ⟨ri, hriF, hri⟩ := omap_get? _ _ _ hfin i cf hsts
  have hmemc : c ∈ cs := List.get?_mem h2
  have hsup : ∀ x ∈ c.swaps.map Swap.timestamp, x ∈ globalTimestamps cs :=
    fun x hx => (mem_dedupSort _ _).mpr
      (List.mem_flatMap.mpr ⟨c, hmemc, hx⟩)
  have hTinv := runOver_timeline_invariant sq ilFn shouldReb doReb getEventAt
    (globalTimestamps cs) c (sorted_dedupSort _) (nodup_dedupSort _) hsup
  have hsolo := globalTimestamps_singleton c
  have hcf2 : runOver sq ilFn shouldReb doReb getEventAt
      (globalTimestamps [c]) c = some cf := by
    rw [hsolo, ← hTinv]
    exact hcf
  have hsubdays : ∀ q ∈ dedupSort ((globalTimestamps [c]).map dayOf),
      q ∈ dedupSort ((globalTimestamps cs).map dayOf) := by
    intro q hq
    rw [mem_dedupSort] at hq ⊢
    obtain ⟨x, hx, rfl⟩ := List.mem_map.mp hq
    refine List.mem_map.mpr ⟨x, ?_, rfl⟩
    rw [hsolo, mem_dedupSort] at hx
    exact hsup x hx
  obtain ⟨r, hrF⟩ := finalizeCtx_total_of_subset (globalTimestamps cs)
    (globalTimestamps [c]) cf ri hriF hsubdays
  have hrun_solo : run sq ilFn shouldReb doReb getEventAt [c] = some [r] := by
    unfold run
    show (runLoop sq ilFn shouldReb doReb getEventAt (globalTimestamps [c])
        [c]).bind
      (fun sts2 => omap (finalizeCtx (globalTimestamps [c])) sts2) = some [r]
    rw [runLoop_eq_omap]
    simp only [omap, hcf2, hrF, Option.some_bind, Option.bind_eq_bind]
  exact ⟨cf, ri, r, hcf, hcf2, hri, hriF, hrun_solo, hrF,
    finalizeCtx_exceptAPR _ _ _ _ _ hriF hrF⟩

set_option maxRecDepth 100000 in
/-- C4 counterexample.  Context A has one swap on calendar day 0 (with a
return tracker); context B has one swap on day 1.  Running both together,
A's return/APR series is queried at the merged timeline's days {0, 1} and
gets an entry for day 1; running A alone it is queried only at day 0 (not
after the start date) and stays empty.  So the merged-run result bundle for
A is not identical to the solo one, refuting the claim as stated. -/
theorem run_isolation_counterexample :
    (run sqPos ilFnZero noShould noReb noEvent [ctxA, ctxB]).bind List.head?
      ≠ (run sqPos ilFnZero noShould noReb noEvent [ctxA]).bind List.head? := by
  with_unfolding_all decide

set_option maxRecDepth 100000 in
/-- Witness for C4's amended theorem on the two concrete contexts. -/
theorem run_isolation_witness :
    ∃ rs, run sqPos ilFnZero noShould noReb noEvent [ctxA, ctxB] = some rs ∧
      ∃ cf ri r,
        runOver sqPos ilFnZero noShould noReb noEvent
          (globalTimestamps [ctxA, ctxB]) ctxA = some cf ∧
        runOver sqPos ilFnZero noShould noReb noEvent
          (globalTimestamps [ctxA]) ctxA = some cf ∧
        rs.get? 0 = some ri ∧
        finalizeCtx (globalTimestamps [ctxA, ctxB]) cf = some ri ∧
        run sqPos ilFnZero noShould noReb noEvent [ctxA] = some [r] ∧
        finalizeCtx (globalTimestamps [ctxA]) cf = some r ∧
        exceptAPR ri = exceptAPR r := by
  have hs : (run sqPos ilFnZero noShould noReb noEvent
      [ctxA, ctxB]).isSome = true := by
    with_unfolding_all rfl
  obtain ⟨rs, h1⟩ : ∃ rs, run sqPos ilFnZero noShould noReb noEvent
      [ctxA, ctxB] = some rs := ⟨_, (Option.some_get hs).symm⟩
  exact ⟨rs, h1, run_isolation sqPos ilFnZero noShould noReb noEvent
    [ctxA, ctxB] rs 0 ctxA h1 rfl⟩

end UniV3
